import Mathlib

/-!
Verification of the additive-noise stochastic Runge-Kutta solver
(`torchsde/core/methods/additive/srk.py`).

Tensors are embedded as flat lists of exact rationals; a per-block state is a
list of such tensors, mirroring the tuple-of-tensors state of the source.
Brownian sampling (`torch.randn_like`), square roots (`torch.sqrt` /
`math.sqrt`) and the path-sampling trapezoidal approximation are external
collaborators of the single-step algorithm and enter as function parameters.
The step additionally records every `(t, y)` argument passed to the drift and
diffusion callables so that evaluation-count and argument properties can be
stated.
-/

namespace TorchSDE

/-- A numeric tensor value: a flat list of exact rationals standing in for the
floating-point entries. -/
abbrev Vec := List ℚ

/-- A diffusion output block: a matrix given as a list of row vectors, mapping a
noise-channel vector to a state-shaped increment. -/
abbrev Mat := List (List ℚ)

/-- A tensor together with its numeric type tag (dtype/device), needed to model
the `.to(...)` conversion on line 54 of the source. -/
structure Tensor where
  dtype : ℕ
  vals : Vec
deriving DecidableEq, Inhabited

/-- Elementwise sum of two value lists (tensor `+` on same-shaped tensors; as
with Python `zip`, a length mismatch truncates to the shorter list). -/
def vadd (a b : Vec) : Vec := List.zipWith (fun x y => x + y) a b

/-- Dot product of two value lists, truncating like `zip`. -/
def dot (r v : Vec) : ℚ := (List.zipWith (fun x y => x * y) r v).sum

/-- Modelled from the spec: `misc.batch_mvp` (in `torchsde/core/misc`, not under
`src/`) — the "applied to" operation of §4.3: a linear map sending a
noise-channel vector to a state-shaped increment, modelled as a plain
matrix-vector product. -/
def batch_mvp (m : Mat) (v : Vec) : Vec := m.map (fun row => dot row v)

/-- Four-way zip truncating to the shortest list, exactly like Python's
four-argument `zip` used in the stage updates. -/
def zipWith4 {α β γ δ ε : Type} (f : α → β → γ → δ → ε) :
    List α → List β → List γ → List δ → List ε
  | a :: as, b :: bs, c :: cs, d :: ds => f a b c d :: zipWith4 f as bs cs ds
  | _, _, _, _ => []

/-- Tensor subtraction, elementwise on values. -/
def Tensor.sub (a b : Tensor) : Tensor :=
  ⟨a.dtype, List.zipWith (fun x y => x - y) a.vals b.vals⟩

/-- Tensor `.to(target)`: convert to the numeric type of `target`, keeping the
values (the value change of a genuine dtype cast is immaterial here; only the
resulting type tag is reasoned about). -/
def Tensor.to (a target : Tensor) : Tensor := ⟨target.dtype, a.vals⟩

/-- The user-supplied SDE: per-block drift `f` and diffusion `g`. -/
structure SDE where
  f : ℚ → List Vec → List Vec
  g : ℚ → List Vec → List Mat

/-- The tableau constants of an SRK scheme: stage count, node times, strictly
lower-triangular coupling matrices and combination weights. -/
structure Tableau where
  STAGES : ℕ
  C0 : ℕ → ℚ
  C1 : ℕ → ℚ
  A0 : ℕ → ℕ → ℚ
  B0 : ℕ → ℕ → ℚ
  alpha : ℕ → ℚ
  beta1 : ℕ → ℚ
  beta2 : ℕ → ℚ

/-- Modelled from the spec: the tableau module `sra1`
(`torchsde/core/methods/tableaus/sra1.py`, not under `src/`) — per §4.1 the
published Rößler SRA1 coefficients are hardcoded: S = 2, C0 = (0, 3/4),
C1 = (1, 0), A0[1][0] = 3/4, B0[1][0] = 3/2, alpha = (1/3, 2/3),
beta1 = (1, 0), beta2 = (-1, 1). -/
def sra1 : Tableau where
  STAGES := 2
  C0 := fun i => if i = 0 then 0 else 3/4
  C1 := fun i => if i = 0 then 1 else 0
  A0 := fun i j => if i = 1 ∧ j = 0 then 3/4 else 0
  B0 := fun i j => if i = 1 ∧ j = 0 then 3/2 else 0
  alpha := fun i => if i = 0 then 1/3 else 2/3
  beta1 := fun i => if i = 0 then 1 else 0
  beta2 := fun i => if i = 0 then -1 else 1

/-- The solver object: exactly the fields of `SRKAdditive` that `step` and
`strong_order` read. -/
structure SRKAdditive where
  sde : SDE
  bm : ℚ → List Tensor
  trapezoidal_approx : Bool

/-- `SRKAdditive.__init__` (lines 40-47): `trapezoidal_approx` is `False` iff
the options mapping contains the key `"trapezoidal_approx"` with value
`False`; otherwise it defaults to `True`. -/
def SRKAdditive.init (sde : SDE) (bm : ℚ → List Tensor) (options : List (String × Bool)) :
    SRKAdditive :=
  { sde := sde, bm := bm,
    trapezoidal_approx :=
      if options.lookup "trapezoidal_approx" = some false then false else true }

/-- Line 54: the Brownian increments over the step,
`I_k = tuple((bm_next - bm_cur).to(y0[0]) for ... in zip(bm(t0 + dt), bm(t0)))`. -/
def I_k_def (bm : ℚ → List Tensor) (t0 dt : ℚ) (y0 : List Tensor) : List Tensor :=
  List.zipWith (fun bm_next bm_cur => (Tensor.sub bm_next bm_cur).to y0.headI)
    (bm (t0 + dt)) (bm t0)

/-- Line 57: the Gaussian-surrogate second-order integral
`dt / 2 * (delta_bm + randn_like(delta_bm) * sqrt_dt / math.sqrt(3))` per
block. `torch.randn_like` and the square root are external library functions,
passed in as the parameters `randnLike` and `sqrt`. -/
def gaussian_I_k0 (sqrt : ℚ → ℚ) (randnLike : Vec → Vec) (dt : ℚ) (I_k : List Vec) :
    List Vec :=
  I_k.map (fun delta_bm =>
    (vadd delta_bm ((randnLike delta_bm).map (fun z => z * sqrt dt / sqrt 3))).map
      (fun x => dt / 2 * x))

/-- Lines 55-58: the second-order stochastic integral `I_k0`. `trapFn` models
`utils.compute_trapezoidal_approx` — modelled from the spec
(`torchsde/core/methods/utils.py` is not under `src/`): §4.2 describes it only
as an approximation of the time integral of the Brownian path that is fully
determined by its arguments `(bm, t0, y0, dt, sqrt_dt)` and introduces no
extra randomness, so it is kept as an abstract function of those arguments. -/
def I_k0_def (s : SRKAdditive) (sqrt : ℚ → ℚ) (randnLike : Vec → Vec)
    (trapFn : (ℚ → List Tensor) → ℚ → List Tensor → ℚ → ℚ → List Vec)
    (t0 : ℚ) (y0 : List Tensor) (dt : ℚ) : List Vec :=
  if s.trapezoidal_approx then trapFn s.bm t0 y0 dt (sqrt dt)
  else gaussian_I_k0 sqrt randnLike dt ((I_k_def s.bm t0 dt y0).map Tensor.vals)

/-- The failure mode of `step`: the `assert dt > 0` on line 50 (named
`InvalidStepSize` in the spec). -/
inductive StepError where
  | invalidStepSize
deriving DecidableEq

/-- The outcome of a successful step: the returned `(t1, y1)` together with the
recorded arguments of every `sde.f` call (`fCalls`) and every `sde.g` call
(`gCalls`), in evaluation order. -/
structure StepResult where
  t1 : ℚ
  y1 : List Vec
  fCalls : List (ℚ × List Vec)
  gCalls : List (ℚ × List Vec)
deriving DecidableEq

/-- Lines 63-73, the inner stage-coupling loop `for j in range(i)` building
`H0i` from `y0`:
`H0i = tuple(H0i_ + A0[i][j] * f_eval_ * dt + B0[i][j] * batch_mvp(g_eval_, I_k0_) / dt ...)`
with `f_eval = sde.f(t0 + C0[j] * dt, H0[j])` and
`g_eval = sde.g(t0 + C1[j] * dt, y0)`. Returns the stage value together with
the logged drift and diffusion call arguments. -/
def stageInner (tab : Tableau) (sde : SDE) (t0 : ℚ) (y0 : List Vec) (dt : ℚ)
    (I_k0 : List Vec) (H0 : List (List Vec)) (i : ℕ) :
    ℕ → List Vec × List (ℚ × List Vec) × List (ℚ × List Vec)
  | 0 => (y0, [], [])
  | j + 1 =>
    let acc := stageInner tab sde t0 y0 dt I_k0 H0 i j
    let f_eval := sde.f (t0 + tab.C0 j * dt) (H0.getD j [])
    let g_eval := sde.g (t0 + tab.C1 j * dt) y0
    (zipWith4 (fun H0i_ f_eval_ g_eval_ I_k0_ =>
        vadd (vadd H0i_ (f_eval_.map (fun x => tab.A0 i j * x * dt)))
          ((batch_mvp g_eval_ I_k0_).map (fun x => tab.B0 i j * x / dt)))
      acc.1 f_eval g_eval I_k0,
     acc.2.1 ++ [(t0 + tab.C0 j * dt, H0.getD j [])],
     acc.2.2 ++ [(t0 + tab.C1 j * dt, y0)])

/-- Lines 60-87, the outer stage loop `for i in range(STAGES)`: builds the
stage list `H0`, the weight
`g_weight = tuple(beta1[i] * I_k_ + beta2[i] * I_k0_ / dt ...)` and the update
`y1 = tuple(y1_ + alpha[i] * f_eval_ * dt + batch_mvp(g_eval_, g_weight_) ...)`
with `f_eval = sde.f(t0 + C0[i] * dt, H0i)` and
`g_eval = sde.g(t0 + C1[i] * dt, y0)`. The first component is `(y1, H0)`; the
second and third are the logged drift and diffusion call arguments. -/
def stageLoop (tab : Tableau) (sde : SDE) (t0 : ℚ) (y0 : List Vec) (dt : ℚ)
    (I_k I_k0 : List Vec) :
    ℕ → (List Vec × List (List Vec)) × List (ℚ × List Vec) × List (ℚ × List Vec)
  | 0 => ((y0, []), [], [])
  | i + 1 =>
    let acc := stageLoop tab sde t0 y0 dt I_k I_k0 i
    let inner := stageInner tab sde t0 y0 dt I_k0 acc.1.2 i i
    let H0i := inner.1
    let f_eval := sde.f (t0 + tab.C0 i * dt) H0i
    let g_eval := sde.g (t0 + tab.C1 i * dt) y0
    let g_weight := List.zipWith (fun I_k_ I_k0_ =>
        vadd (I_k_.map (fun x => tab.beta1 i * x))
          (I_k0_.map (fun x => tab.beta2 i * x / dt))) I_k I_k0
    ((zipWith4 (fun y1_ f_eval_ g_eval_ g_weight_ =>
         vadd (vadd y1_ (f_eval_.map (fun x => tab.alpha i * x * dt)))
           (batch_mvp g_eval_ g_weight_))
       acc.1.1 f_eval g_eval g_weight,
      acc.1.2 ++ [H0i]),
     acc.2.1 ++ inner.2.1 ++ [(t0 + tab.C0 i * dt, H0i)],
     acc.2.2 ++ inner.2.2 ++ [(t0 + tab.C1 i * dt, y0)])

/-- Lines 49-87: `SRKAdditive.step(t0, y0, dt)`. Checks `dt > 0` first (line
50), computes `I_k` and `I_k0` (lines 52-58), runs the SRA1 stage loop (lines
60-86) and returns `(t0 + dt, y1)` (line 87), together with the logged drift
and diffusion call arguments. -/
def SRKAdditive.step (s : SRKAdditive) (sqrt : ℚ → ℚ) (randnLike : Vec → Vec)
    (trapFn : (ℚ → List Tensor) → ℚ → List Tensor → ℚ → ℚ → List Vec)
    (t0 : ℚ) (y0 : List Tensor) (dt : ℚ) : Except StepError StepResult :=
  if 0 < dt then
    let I_kv : List Vec := (I_k_def s.bm t0 dt y0).map Tensor.vals
    let I_k0 : List Vec := I_k0_def s sqrt randnLike trapFn t0 y0 dt
    let acc := stageLoop sra1 s.sde t0 (y0.map Tensor.vals) dt I_kv I_k0 sra1.STAGES
    Except.ok ⟨t0 + dt, acc.1.1, acc.2.1, acc.2.2⟩
  else Except.error StepError.invalidStepSize

/-- Lines 89-91: the `strong_order` property, a constant `1.5` on every
instance. -/
def SRKAdditive.strong_order (_s : SRKAdditive) : ℚ := 1.5

/-- Specification-side inner loop, transcribed from the §4.3 pseudocode:
`H0i := H0i + A0[i][j]*f_j*dt + B0[i][j]*(g_j applied to I_k0) / dt` per block,
with `f_j := sde.drift(t0 + C0[j]*dt, H0[j])` and
`g_j := sde.diffusion(t0 + C1[j]*dt, y0)`; compared against `stageInner` for
the refinement claim. -/
def specInner (tab : Tableau) (sde : SDE) (t0 : ℚ) (y0 : List Vec) (dt : ℚ)
    (I_k0 : List Vec) (H0 : List (List Vec)) (i : ℕ) : ℕ → List Vec
  | 0 => y0
  | j + 1 =>
    let H0i := specInner tab sde t0 y0 dt I_k0 H0 i j
    let f_j := sde.f (t0 + tab.C0 j * dt) (H0.getD j [])
    let g_j := sde.g (t0 + tab.C1 j * dt) y0
    zipWith4 (fun H0i_ f_ g_ I_k0_ =>
        vadd (vadd H0i_ (f_.map (fun x => tab.A0 i j * x * dt)))
          ((batch_mvp g_ I_k0_).map (fun x => tab.B0 i j * x / dt)))
      H0i f_j g_j I_k0

/-- Specification-side stage loop, transcribed from the §4.3 pseudocode:
`y1 := y1 + alpha[i]*f_i*dt + (g_i applied to g_weight)` per block with
`g_weight := beta1[i]*I_k + beta2[i]*I_k0/dt`, `f_i` the drift at stage `H0i`
and `g_i` the diffusion at `y0`; returns `(y1, H0)`. -/
def specLoop (tab : Tableau) (sde : SDE) (t0 : ℚ) (y0 : List Vec) (dt : ℚ)
    (I_k I_k0 : List Vec) : ℕ → List Vec × List (List Vec)
  | 0 => (y0, [])
  | i + 1 =>
    let acc := specLoop tab sde t0 y0 dt I_k I_k0 i
    let H0i := specInner tab sde t0 y0 dt I_k0 acc.2 i i
    let f_i := sde.f (t0 + tab.C0 i * dt) H0i
    let g_i := sde.g (t0 + tab.C1 i * dt) y0
    let g_weight := List.zipWith (fun I_k_ I_k0_ =>
        vadd (I_k_.map (fun x => tab.beta1 i * x))
          (I_k0_.map (fun x => tab.beta2 i * x / dt))) I_k I_k0
    (zipWith4 (fun y1_ f_ g_ w_ =>
        vadd (vadd y1_ (f_.map (fun x => tab.alpha i * x * dt)))
          (batch_mvp g_ w_))
      acc.1 f_i g_i g_weight,
     acc.2 ++ [H0i])

/-- The §4.3 contract `compute_step(sde, t0, y0, dt, I_k, I_k0, tableau) -> y1`. -/
def spec_compute_step (tab : Tableau) (sde : SDE) (t0 : ℚ) (y0 : List Vec)
    (dt : ℚ) (I_k I_k0 : List Vec) : List Vec :=
  (specLoop tab sde t0 y0 dt I_k I_k0 tab.STAGES).1

/-- The deterministic explicit Runge-Kutta inner stage coupling determined
solely by `A0` and `C0` (the diffusion contribution removed). -/
def rkInner (tab : Tableau) (f : ℚ → List Vec → List Vec) (t0 : ℚ) (y0 : List Vec)
    (dt : ℚ) (H0 : List (List Vec)) (i : ℕ) : ℕ → List Vec
  | 0 => y0
  | j + 1 =>
    let H0i := rkInner tab f t0 y0 dt H0 i j
    List.zipWith (fun H0i_ f_eval_ => vadd H0i_ (f_eval_.map (fun x => tab.A0 i j * x * dt)))
      H0i (f (t0 + tab.C0 j * dt) (H0.getD j []))

/-- The deterministic explicit Runge-Kutta stage loop determined solely by
`A0`, `C0` and `alpha`; returns `(y1, H0)`. -/
def rkLoop (tab : Tableau) (f : ℚ → List Vec → List Vec) (t0 : ℚ) (y0 : List Vec)
    (dt : ℚ) : ℕ → List Vec × List (List Vec)
  | 0 => (y0, [])
  | i + 1 =>
    let acc := rkLoop tab f t0 y0 dt i
    let H0i := rkInner tab f t0 y0 dt acc.2 i i
    (List.zipWith (fun y1_ f_eval_ => vadd y1_ (f_eval_.map (fun x => tab.alpha i * x * dt)))
       acc.1 (f (t0 + tab.C0 i * dt) H0i),
     acc.2 ++ [H0i])

/-- The deterministic explicit Runge-Kutta update determined solely by `A0`,
`C0` and `alpha`, used to state the zero-diffusion reduction. -/
def rkStep (tab : Tableau) (f : ℚ → List Vec → List Vec) (t0 : ℚ) (y0 : List Vec)
    (dt : ℚ) : List Vec :=
  (rkLoop tab f t0 y0 dt tab.STAGES).1

/-- Blockwise length domination: `PrefixLE xs ys` holds when `xs` has at most
as many blocks as `ys` and each block of `xs` is at most as long as the
corresponding block of `ys`. Invariant of the evolving state through the
truncating `zip` updates. -/
inductive PrefixLE : List Vec → List Vec → Prop
  | nil (ys : List Vec) : PrefixLE [] ys
  | cons (x y : Vec) (xs ys : List Vec) :
      x.length ≤ y.length → PrefixLE xs ys → PrefixLE (x :: xs) (y :: ys)

/-- The conformant zero diffusion operator on a state shaped like `y`: one
matrix per block, one all-zero row of `m` noise channels per state entry. -/
def zeroDiffusion (m : ℕ) (y : List Vec) : List Mat :=
  y.map (fun blk => blk.map (fun _ => List.replicate m (0 : ℚ)))

theorem sra1_STAGES : sra1.STAGES = 2 := rfl

theorem stageInner_val (tab : Tableau) (sde : SDE) (t0 : ℚ) (y0 : List Vec) (dt : ℚ)
    (I_k0 : List Vec) (H0 : List (List Vec)) (i : ℕ) :
    ∀ j, (stageInner tab sde t0 y0 dt I_k0 H0 i j).1 = specInner tab sde t0 y0 dt I_k0 H0 i j := by
  intro j
  induction j with
  | zero => rfl
  | succ j ih => simp only [stageInner, specInner, ih]

theorem stageLoop_val (tab : Tableau) (sde : SDE) (t0 : ℚ) (y0 : List Vec) (dt : ℚ)
    (I_k I_k0 : List Vec) :
    ∀ n, (stageLoop tab sde t0 y0 dt I_k I_k0 n).1 = specLoop tab sde t0 y0 dt I_k I_k0 n := by
  intro n
  induction n with
  | zero => rfl
  | succ n ih => simp only [stageLoop, specLoop, ih, stageInner_val]

/-- C1: for every call `step(t0, y0, dt)` with `dt > 0`, given the Brownian
quantities `I_k` and `I_k0`, the method returns `(t0 + dt, y1)` where `y1` is
computed exactly by the S-stage tableau loop of the spec (§4.3): each stage
`H0[i]` starts from `y0` and, for `j < i`, adds
`A0[i][j]*f(t0+C0[j]*dt, H0[j])*dt + B0[i][j]*(g(t0+C1[j]*dt, y0) applied to I_k0)/dt`
per block, and `y1` accumulates `alpha[i]*f(t0+C0[i]*dt, H0[i])*dt` plus
`g(t0+C1[i]*dt, y0)` applied to `beta1[i]*I_k + beta2[i]*I_k0/dt` per block. -/
theorem step_matches_spec_tableau_loop (s : SRKAdditive) (sqrt : ℚ → ℚ)
    (randnLike : Vec → Vec)
    (trapFn : (ℚ → List Tensor) → ℚ → List Tensor → ℚ → ℚ → List Vec)
    (t0 : ℚ) (y0 : List Tensor) (dt : ℚ) (h : 0 < dt) :
    (s.step sqrt randnLike trapFn t0 y0 dt).toOption.map (fun r => (r.t1, r.y1)) =
      some (t0 + dt,
        spec_compute_step sra1 s.sde t0 (y0.map Tensor.vals) dt
          ((I_k_def s.bm t0 dt y0).map Tensor.vals)
          (I_k0_def s sqrt randnLike trapFn t0 y0 dt)) := by
  simp only [SRKAdditive.step, h, if_true, Except.toOption, spec_compute_step,
    stageLoop_val, if_pos, Option.map_some']

theorem step_matches_spec_tableau_loop_witness :
    ((SRKAdditive.mk ⟨fun _ y => y, fun t _ => [[[t]]]⟩ (fun t => [⟨0, [t]⟩]) false).step
        id id (fun _ _ _ _ _ => []) 0 [⟨0, [1]⟩] 1).toOption.map (fun r => (r.t1, r.y1)) =
      some (0 + 1,
        spec_compute_step sra1
          (SRKAdditive.mk ⟨fun _ y => y, fun t _ => [[[t]]]⟩ (fun t => [⟨0, [t]⟩]) false).sde 0
          ([⟨0, [1]⟩].map Tensor.vals) 1
          ((I_k_def (SRKAdditive.mk ⟨fun _ y => y, fun t _ => [[[t]]]⟩
              (fun t => [⟨0, [t]⟩]) false).bm 0 1 [⟨0, [1]⟩]).map Tensor.vals)
          (I_k0_def (SRKAdditive.mk ⟨fun _ y => y, fun t _ => [[[t]]]⟩
            (fun t => [⟨0, [t]⟩]) false) id id (fun _ _ _ _ _ => []) 0 [⟨0, [1]⟩] 1)) :=
  step_matches_spec_tableau_loop _ _ _ _ _ _ _ (by norm_num)

theorem stageInner_logs_length (tab : Tableau) (sde : SDE) (t0 : ℚ) (y0 : List Vec)
    (dt : ℚ) (I_k0 : List Vec) (H0 : List (List Vec)) (i : ℕ) :
    ∀ j, (stageInner tab sde t0 y0 dt I_k0 H0 i j).2.1.length = j ∧
      (stageInner tab sde t0 y0 dt I_k0 H0 i j).2.2.length = j := by
  intro j
  induction j with
  | zero => exact ⟨rfl, rfl⟩
  | succ j ih => simp [stageInner, ih.1, ih.2]

theorem stageLoop_logs_length (tab : Tableau) (sde : SDE) (t0 : ℚ) (y0 : List Vec)
    (dt : ℚ) (I_k I_k0 : List Vec) :
    ∀ n, 2 * (stageLoop tab sde t0 y0 dt I_k I_k0 n).2.1.length = n * (n + 1) ∧
      2 * (stageLoop tab sde t0 y0 dt I_k I_k0 n).2.2.length = n * (n + 1) := by
  intro n
  induction n with
  | zero => exact ⟨rfl, rfl⟩
  | succ n ih =>
    obtain ⟨ih1, ih2⟩ := ih
    have hi := stageInner_logs_length tab sde t0 y0 dt I_k0
      (stageLoop tab sde t0 y0 dt I_k I_k0 n).1.2 n n
    have hr : (n + 1) * (n + 1 + 1) = n * (n + 1) + 2 * (n + 1) := by ring
    constructor <;>
      simp only [stageLoop, List.length_append, List.length_cons, List.length_nil,
        hi.1, hi.2] <;>
      omega

/-- C2 counterexample: on a concrete `step` call with `dt > 0`, the solver
performs 3 drift and 3 diffusion evaluations while the tableau stage count is
`S = 2` — refuting "exactly S evaluations of `sde.drift` and exactly S
evaluations of `sde.diffusion` (no more)". -/
theorem drift_diffusion_eval_count_ne_stages :
    ((SRKAdditive.mk ⟨fun _ y => y, fun t _ => [[[t]]]⟩ (fun t => [⟨0, [t]⟩]) false).step
        id id (fun _ _ _ _ _ => []) 0 [⟨0, [1]⟩] 1).toOption.map
        (fun r => (r.fCalls.length, r.gCalls.length)) = some (3, 3) ∧
      (3, 3) ≠ (sra1.STAGES, sra1.STAGES) := by
  constructor
  · norm_num [SRKAdditive.step, I_k0_def, I_k_def, gaussian_I_k0, stageLoop, stageInner,
      zipWith4, vadd, dot, batch_mvp, sra1, Tensor.sub, Tensor.to, Except.toOption]
  · simp [sra1]

/-- C2 amended: for every call `step(t0, y0, dt)` with `dt > 0`, the step
performs exactly `S*(S+1)/2 = 3` evaluations of `sde.drift` and exactly 3
evaluations of `sde.diffusion` (the stage evaluation at each of the `S = 2`
stages plus one re-evaluation per strictly-lower-triangular pair `j < i`),
rather than `S = 2` of each. -/
theorem drift_diffusion_eval_count_amended (s : SRKAdditive) (sqrt : ℚ → ℚ)
    (randnLike : Vec → Vec)
    (trapFn : (ℚ → List Tensor) → ℚ → List Tensor → ℚ → ℚ → List Vec)
    (t0 : ℚ) (y0 : List Tensor) (dt : ℚ) (h : 0 < dt) :
    (s.step sqrt randnLike trapFn t0 y0 dt).toOption.map
      (fun r => (r.fCalls.length, r.gCalls.length)) = some (3, 3) := by
  have hl := stageLoop_logs_length sra1 s.sde t0 (y0.map Tensor.vals) dt
    ((I_k_def s.bm t0 dt y0).map Tensor.vals)
    (I_k0_def s sqrt randnLike trapFn t0 y0 dt) sra1.STAGES
  have h2 : sra1.STAGES = 2 := rfl
  rw [h2] at hl
  obtain ⟨hl1, hl2⟩ := hl
  simp only [SRKAdditive.step, h, if_true, Except.toOption, Option.map_some',
    Option.some.injEq, Prod.mk.injEq, h2]
  exact ⟨by omega, by omega⟩

theorem drift_diffusion_eval_count_amended_witness :
    ((SRKAdditive.mk ⟨fun _ y => y, fun t _ => [[[t]]]⟩ (fun t => [⟨0, [t]⟩]) true).step
        id id (fun _ _ _ _ _ => [[0]]) 0 [⟨0, [1]⟩] 1).toOption.map
      (fun r => (r.fCalls.length, r.gCalls.length)) = some (3, 3) :=
  drift_diffusion_eval_count_amended _ _ _ _ _ _ _ (by norm_num)

theorem stageInner_gLog_snd (tab : Tableau) (sde : SDE) (t0 : ℚ) (y0 : List Vec)
    (dt : ℚ) (I_k0 : List Vec) (H0 : List (List Vec)) (i : ℕ) :
    ∀ j, ∀ p ∈ (stageInner tab sde t0 y0 dt I_k0 H0 i j).2.2, p.2 = y0 := by
  intro j
  induction j with
  | zero => intro p hp; exact absurd hp (List.not_mem_nil p)
  | succ j ih =>
    intro p hp
    simp only [stageInner, List.mem_append, List.mem_singleton] at hp
    rcases hp with hp | hp
    · exact ih p hp
    · rw [hp]

theorem stageLoop_gLog_snd (tab : Tableau) (sde : SDE) (t0 : ℚ) (y0 : List Vec)
    (dt : ℚ) (I_k I_k0 : List Vec) :
    ∀ n, ∀ p ∈ (stageLoop tab sde t0 y0 dt I_k I_k0 n).2.2, p.2 = y0 := by
  intro n
  induction n with
  | zero => intro p hp; exact absurd hp (List.not_mem_nil p)
  | succ n ih =>
    intro p hp
    simp only [stageLoop, List.mem_append, List.mem_singleton] at hp
    rcases hp with (hp | hp) | hp
    · exact ih p hp
    · exact stageInner_gLog_snd tab sde t0 y0 dt I_k0 _ n n p hp
    · rw [hp]

/-- C4: within a single step, every evaluation of the diffusion `sde.g` — in
the inner stage-coupling loop and in the final stage combination alike —
receives the initial state `y0` as its state argument, never an intermediate
stage value. -/
theorem diffusion_always_evaluated_at_y0 (s : SRKAdditive) (sqrt : ℚ → ℚ)
    (randnLike : Vec → Vec)
    (trapFn : (ℚ → List Tensor) → ℚ → List Tensor → ℚ → ℚ → List Vec)
    (t0 : ℚ) (y0 : List Tensor) (dt : ℚ) (h : 0 < dt) :
    ∀ l, (s.step sqrt randnLike trapFn t0 y0 dt).toOption.map StepResult.gCalls = some l →
      ∀ p ∈ l, p.2 = y0.map Tensor.vals := by
  intro l hl
  simp only [SRKAdditive.step, h, if_true, Except.toOption, Option.map_some',
    Option.some.injEq] at hl
  rw [← hl]
  exact stageLoop_gLog_snd sra1 s.sde t0 (y0.map Tensor.vals) dt _ _ sra1.STAGES

theorem diffusion_always_evaluated_at_y0_witness :
    (((0 : ℚ) + 1 * 1, [[(1 : ℚ)]]) : ℚ × List Vec).2 = [(⟨0, [1]⟩ : Tensor)].map Tensor.vals :=
  diffusion_always_evaluated_at_y0
    (SRKAdditive.mk ⟨fun _ y => y, fun t _ => [[[t]]]⟩ (fun t => [⟨0, [t]⟩]) false)
    id id (fun _ _ _ _ _ => []) 0 [⟨0, [1]⟩] 1 (by norm_num)
    [(0 + 1 * 1, [[1]]), (0 + 1 * 1, [[1]]), (0 + 0 * 1, [[1]])]
    (by norm_num [SRKAdditive.step, I_k0_def, I_k_def, gaussian_I_k0, stageLoop, stageInner,
      zipWith4, vadd, dot, batch_mvp, sra1, Tensor.sub, Tensor.to, Except.toOption])
    _ (by norm_num)

/-- C9: the `strong_order` property returns exactly 1.5 on every instance of
the solver, regardless of the configuration options (in particular regardless
of the `trapezoidal_approx` setting). -/
theorem strong_order_always_three_halves :
    (∀ (s : SRKAdditive), s.strong_order = 1.5) ∧
    ∀ (sde : SDE) (bm : ℚ → List Tensor) (options : List (String × Bool)),
      (SRKAdditive.init sde bm options).strong_order = 1.5 :=
  ⟨fun _ => rfl, fun _ _ _ => rfl⟩

/-- C3: calling `step(t0, y0, dt)` with `dt ≤ 0` fails with the
`InvalidStepSize` error and performs no drift or diffusion evaluation: the
result is the error for every solver instance whatsoever (in particular it
does not depend on `sde`, `bm`, or the sampling functions), and the error is
returned to the caller, never recovered internally. -/
theorem step_nonpositive_dt_invalid_step_size (s : SRKAdditive) (sqrt : ℚ → ℚ)
    (randnLike : Vec → Vec)
    (trapFn : (ℚ → List Tensor) → ℚ → List Tensor → ℚ → ℚ → List Vec)
    (t0 : ℚ) (y0 : List Tensor) (dt : ℚ) (h : dt ≤ 0) :
    s.step sqrt randnLike trapFn t0 y0 dt = Except.error StepError.invalidStepSize := by
  simp only [SRKAdditive.step, if_neg (not_lt.mpr h)]

theorem step_nonpositive_dt_invalid_step_size_witness :
    (SRKAdditive.mk ⟨fun _ y => y, fun _ _ => [[[1]]]⟩ (fun t => [⟨0, [t]⟩]) true).step
        id id (fun _ _ _ _ _ => []) 0 [⟨0, [1]⟩] 0 =
      Except.error StepError.invalidStepSize ∧
    (SRKAdditive.mk ⟨fun _ y => y, fun _ _ => [[[1]]]⟩ (fun t => [⟨0, [t]⟩]) true).step
        id id (fun _ _ _ _ _ => []) 0 [⟨0, [1]⟩] (-1) =
      Except.error StepError.invalidStepSize :=
  ⟨step_nonpositive_dt_invalid_step_size _ _ _ _ _ _ _ (by norm_num),
   step_nonpositive_dt_invalid_step_size _ _ _ _ _ _ _ (by norm_num)⟩

/-- C5: with `trapezoidal_approx` disabled, per block the second-order
stochastic integral is `I_k0[block] = (dt/2) * (I_k[block] + Z * sqrt(dt/3))`
with `Z = randnLike I_k[block]` a fresh sample of the same shape as
`I_k[block]`. The code computes `Z * sqrt(dt) / sqrt(3)`; this agrees with
`Z * sqrt(dt/3)` whenever the square-root function satisfies
`sqrt dt / sqrt 3 = sqrt (dt / 3)`, as the real square root does. The second
conjunct is the shape statement: each `I_k0` block has the length of the
corresponding `I_k` block. -/
theorem gaussian_surrogate_formula (sqrt : ℚ → ℚ) (randnLike : Vec → Vec) (dt : ℚ)
    (I_k : List Vec) (h3 : sqrt dt / sqrt 3 = sqrt (dt / 3))
    (hlen : ∀ v, (randnLike v).length = v.length) :
    gaussian_I_k0 sqrt randnLike dt I_k =
      I_k.map (fun delta_bm =>
        (vadd delta_bm ((randnLike delta_bm).map (fun z => sqrt (dt / 3) * z))).map
          (fun x => dt / 2 * x)) ∧
    ∀ b : ℕ, ((gaussian_I_k0 sqrt randnLike dt I_k)[b]?).map List.length =
      (I_k[b]?).map List.length := by
  have hfun : (fun z => z * sqrt dt / sqrt 3) = (fun z : ℚ => sqrt (dt / 3) * z) := by
    funext z
    rw [mul_div_assoc, h3, mul_comm]
  constructor
  · simp only [gaussian_I_k0, hfun]
  · intro b
    simp only [gaussian_I_k0, List.getElem?_map]
    cases hb : I_k[b]? with
    | none => rfl
    | some d =>
      simp [vadd, List.length_zipWith, hlen d, min_self]

theorem gaussian_surrogate_formula_witness :
    (gaussian_I_k0 (fun q => if q = 1 then 1 else if q = 3 then 5 else 0) id 3 [[1]] =
      [[1]].map (fun delta_bm =>
        (vadd delta_bm ((id delta_bm).map
          (fun z => (fun q : ℚ => if q = 1 then 1 else if q = 3 then 5 else 0) ((3 : ℚ) / 3) * z))).map
          (fun x => (3 : ℚ) / 2 * x))) ∧
    ((gaussian_I_k0 (fun q => if q = 1 then 1 else if q = 3 then 5 else 0) id 3 [[1]])[0]?).map
        List.length = (([[1]] : List Vec)[0]?).map List.length :=
  ⟨(gaussian_surrogate_formula _ id 3 [[1]] (by norm_num) (fun _ => rfl)).1,
   (gaussian_surrogate_formula _ id 3 [[1]] (by norm_num) (fun _ => rfl)).2 0⟩

/-- C6 counterexample: with a two-block state whose blocks have distinct
numeric types (dtype 0 and dtype 1), the second Brownian increment block is
converted to dtype 0 — the type of `y0[0]` — not to the type of its
corresponding block `y0[1]`, refuting "converted to the numeric type of the
corresponding state block y0[b]". -/
theorem increment_dtype_not_per_block :
    ((I_k_def (fun _ => [⟨5, [0]⟩, ⟨5, [0]⟩]) 0 1 [⟨0, [1]⟩, ⟨1, [1]⟩]).getD 1 default).dtype ≠
      (([⟨0, [1]⟩, ⟨1, [1]⟩] : List Tensor).getD 1 default).dtype := by
  norm_num [I_k_def, Tensor.sub, Tensor.to]

/-- C6 amended: every block of the Brownian increment tuple `I_k` is converted
(line 54, `.to(y0[0])`) to the numeric type of the FIRST state block `y0[0]`,
regardless of which block it corresponds to. -/
theorem increment_dtype_first_block (bm : ℚ → List Tensor) (t0 dt : ℚ)
    (y0 : List Tensor) :
    ∀ x ∈ I_k_def bm t0 dt y0, x.dtype = y0.headI.dtype := by
  have key : ∀ (as bs : List Tensor),
      ∀ x ∈ List.zipWith (fun bm_next bm_cur => (Tensor.sub bm_next bm_cur).to y0.headI) as bs,
        x.dtype = y0.headI.dtype := by
    intro as
    induction as with
    | nil => intro bs x hx; simp at hx
    | cons a as ih =>
      intro bs x hx
      cases bs with
      | nil => simp at hx
      | cons b bs =>
        simp only [List.zipWith_cons_cons, List.mem_cons] at hx
        rcases hx with hx | hx
        · rw [hx]; rfl
        · exact ih bs x hx
  exact key _ _

theorem increment_dtype_first_block_witness :
    (Tensor.mk 0 [1]).dtype = ([⟨0, [2]⟩, ⟨1, [3]⟩] : List Tensor).headI.dtype :=
  increment_dtype_first_block (fun t => [⟨7, [t]⟩]) 0 1 [⟨0, [2]⟩, ⟨1, [3]⟩] ⟨0, [1]⟩
    (by norm_num [I_k_def, Tensor.sub, Tensor.to])

/-- C8: in trapezoidal mode `step` is deterministic given its inputs and the
Brownian source's responses — the fresh-normal sampler is never consulted, so
two calls with identical `(t0, y0, dt)` and identical Brownian responses agree
for any two samplers; in Gaussian-surrogate mode this two-run determinism
fails: a concrete instance where two fresh draws give different `y1`. -/
theorem trapezoidal_deterministic_gaussian_not :
    (∀ (sde : SDE) (bm : ℚ → List Tensor) (sqrt : ℚ → ℚ) (rl rl' : Vec → Vec)
        (trapFn : (ℚ → List Tensor) → ℚ → List Tensor → ℚ → ℚ → List Vec)
        (t0 : ℚ) (y0 : List Tensor) (dt : ℚ),
      (SRKAdditive.mk sde bm true).step sqrt rl trapFn t0 y0 dt =
        (SRKAdditive.mk sde bm true).step sqrt rl' trapFn t0 y0 dt) ∧
    (((SRKAdditive.mk ⟨fun _ _ => [[0]], fun t _ => [[[t]]]⟩ (fun t => [⟨0, [t]⟩]) false).step
          id (fun v => v.map (fun _ => 0)) (fun _ _ _ _ _ => []) 0 [⟨0, [0]⟩] 1).toOption.map
        StepResult.y1 ≠
      ((SRKAdditive.mk ⟨fun _ _ => [[0]], fun t _ => [[[t]]]⟩ (fun t => [⟨0, [t]⟩]) false).step
          id (fun v => v.map (fun _ => 1)) (fun _ _ _ _ _ => []) 0 [⟨0, [0]⟩] 1).toOption.map
        StepResult.y1) :=
  ⟨fun _ _ _ _ _ _ _ _ _ => rfl,
   by norm_num [SRKAdditive.step, I_k0_def, I_k_def, gaussian_I_k0, stageLoop, stageInner,
     zipWith4, vadd, dot, batch_mvp, sra1, Tensor.sub, Tensor.to, Except.toOption]⟩

theorem zipWith4_nil_left {α β γ δ ε : Type} (f : α → β → γ → δ → ε)
    (bs : List β) (cs : List γ) (ds : List δ) : zipWith4 f [] bs cs ds = [] := by
  cases bs <;> cases cs <;> cases ds <;> rfl

theorem zipWith4_nil_snd {α β γ δ ε : Type} (f : α → β → γ → δ → ε)
    (as : List α) (cs : List γ) (ds : List δ) : zipWith4 f as [] cs ds = [] := by
  cases as <;> cases cs <;> cases ds <;> rfl

theorem zipWith4_cons {α β γ δ ε : Type} (f : α → β → γ → δ → ε)
    (a : α) (as : List α) (b : β) (bs : List β) (c : γ) (cs : List γ)
    (d : δ) (ds : List δ) :
    zipWith4 f (a :: as) (b :: bs) (c :: cs) (d :: ds) =
      f a b c d :: zipWith4 f as bs cs ds := rfl

theorem dot_replicate_zero (m : ℕ) : ∀ v : Vec, dot (List.replicate m 0) v = 0 := by
  induction m with
  | zero => intro v; cases v <;> simp [dot]
  | succ m ih =>
    intro v
    cases v with
    | nil => simp [dot]
    | cons w ws => simpa [dot, List.replicate_succ] using ih ws

theorem batch_mvp_zero (m : ℕ) (blk v : Vec) :
    batch_mvp (blk.map (fun _ => List.replicate m (0 : ℚ))) v = blk.map (fun _ => (0 : ℚ)) := by
  simp [batch_mvp, List.map_map, Function.comp, dot_replicate_zero]

theorem vadd_map_zero_of_le : ∀ (x blk : Vec), x.length ≤ blk.length →
    vadd x (blk.map (fun _ => (0 : ℚ))) = x := by
  intro x
  induction x with
  | nil => intro blk _; simp [vadd]
  | cons a x ih =>
    intro blk h
    cases blk with
    | nil => simp at h
    | cons b blk =>
      simp only [List.map_cons, vadd, List.zipWith_cons_cons, add_zero]
      exact congrArg (a :: ·) (ih blk (Nat.le_of_succ_le_succ h))

theorem length_vadd_le (a b : Vec) : (vadd a b).length ≤ a.length := by
  rw [vadd, List.length_zipWith]
  exact Nat.min_le_left _ _

theorem prefixLE_refl (xs : List Vec) : PrefixLE xs xs := by
  induction xs with
  | nil => exact PrefixLE.nil []
  | cons x xs ih => exact PrefixLE.cons x x xs xs (le_refl _) ih

theorem PrefixLE.length_le {xs ys : List Vec} (h : PrefixLE xs ys) :
    xs.length ≤ ys.length := by
  induction h with
  | nil ys => simp
  | cons x y xs ys hx hrest ih => simpa using Nat.succ_le_succ ih

theorem prefixLE_zipWith (G : Vec → Vec → Vec) (hG : ∀ a b, (G a b).length ≤ a.length)
    {xs ys : List Vec} (h : PrefixLE xs ys) :
    ∀ fs : List Vec, PrefixLE (List.zipWith G xs fs) ys := by
  induction h with
  | nil ys => intro fs; rw [List.zipWith_nil_left]; exact PrefixLE.nil ys
  | cons x y xs ys hx hrest ih =>
    intro fs
    cases fs with
    | nil => rw [List.zipWith_nil_right]; exact PrefixLE.nil _
    | cons f fs =>
      rw [List.zipWith_cons_cons]
      exact PrefixLE.cons _ _ _ _ ((hG x f).trans hx) (ih fs)

theorem zipWith4_zero_g (p q : ℚ → ℚ) (hq : q 0 = 0) (m : ℕ) :
    ∀ (xs ys fs ws : List Vec), PrefixLE xs ys → xs.length ≤ ws.length →
      zipWith4 (fun a b g w => vadd (vadd a (b.map p)) ((batch_mvp g w).map q))
          xs fs (zeroDiffusion m ys) ws =
        List.zipWith (fun a b => vadd a (b.map p)) xs fs := by
  intro xs ys fs ws h
  induction h generalizing fs ws with
  | nil ys =>
    intro _
    rw [zipWith4_nil_left, List.zipWith_nil_left]
  | cons x y xs ys hx hrest ih =>
    intro hw
    cases fs with
    | nil => rw [zipWith4_nil_snd, List.zipWith_nil_right]
    | cons f fs =>
      cases ws with
      | nil => exact absurd hw (by simp)
      | cons w ws =>
        have hz : zeroDiffusion m (y :: ys) =
            (y.map (fun _ => List.replicate m (0 : ℚ))) :: zeroDiffusion m ys := rfl
        have hqmap : (y.map (fun _ => (0 : ℚ))).map q = y.map (fun _ => (0 : ℚ)) := by
          simp [List.map_map, Function.comp, hq]
        have hd : vadd (vadd x (f.map p))
            ((batch_mvp (y.map (fun _ => List.replicate m (0 : ℚ))) w).map q) =
              vadd x (f.map p) := by
          rw [batch_mvp_zero, hqmap]
          exact vadd_map_zero_of_le _ _ ((length_vadd_le _ _).trans hx)
        rw [hz, zipWith4_cons, List.zipWith_cons_cons, hd,
          ih fs ws (Nat.le_of_succ_le_succ hw)]

theorem zipWith4_zero_g_plain (p : ℚ → ℚ) (m : ℕ) :
    ∀ (xs ys fs ws : List Vec), PrefixLE xs ys → xs.length ≤ ws.length →
      zipWith4 (fun a b g w => vadd (vadd a (b.map p)) (batch_mvp g w))
          xs fs (zeroDiffusion m ys) ws =
        List.zipWith (fun a b => vadd a (b.map p)) xs fs := by
  intro xs ys fs ws h
  induction h generalizing fs ws with
  | nil ys =>
    intro _
    rw [zipWith4_nil_left, List.zipWith_nil_left]
  | cons x y xs ys hx hrest ih =>
    intro hw
    cases fs with
    | nil => rw [zipWith4_nil_snd, List.zipWith_nil_right]
    | cons f fs =>
      cases ws with
      | nil => exact absurd hw (by simp)
      | cons w ws =>
        have hz : zeroDiffusion m (y :: ys) =
            (y.map (fun _ => List.replicate m (0 : ℚ))) :: zeroDiffusion m ys := rfl
        have hd : vadd (vadd x (f.map p))
            (batch_mvp (y.map (fun _ => List.replicate m (0 : ℚ))) w) =
              vadd x (f.map p) := by
          rw [batch_mvp_zero]
          exact vadd_map_zero_of_le _ _ ((length_vadd_le _ _).trans hx)
        rw [hz, zipWith4_cons, List.zipWith_cons_cons, hd,
          ih fs ws (Nat.le_of_succ_le_succ hw)]

theorem stageInner_zero_diffusion (tab : Tableau) (sde : SDE) (t0 : ℚ) (y0 : List Vec)
    (dt : ℚ) (I_k0 : List Vec) (H0 : List (List Vec)) (i : ℕ) (m : ℕ)
    (hg : ∀ t, sde.g t y0 = zeroDiffusion m y0)
    (hIk0 : y0.length ≤ I_k0.length) :
    ∀ j, (stageInner tab sde t0 y0 dt I_k0 H0 i j).1 = rkInner tab sde.f t0 y0 dt H0 i j ∧
      PrefixLE (rkInner tab sde.f t0 y0 dt H0 i j) y0 := by
  intro j
  induction j with
  | zero => exact ⟨rfl, prefixLE_refl y0⟩
  | succ j ih =>
    refine ⟨?_, ?_⟩
    · simp only [stageInner, rkInner]
      rw [ih.1, hg]
      exact zipWith4_zero_g (fun x => tab.A0 i j * x * dt) (fun x => tab.B0 i j * x / dt)
        (by norm_num) m _ _ _ _ ih.2 (ih.2.length_le.trans hIk0)
    · simp only [rkInner]
      exact prefixLE_zipWith _ (fun a b => length_vadd_le _ _) ih.2 _

theorem stageLoop_zero_diffusion (tab : Tableau) (sde : SDE) (t0 : ℚ) (y0 : List Vec)
    (dt : ℚ) (I_k I_k0 : List Vec) (m : ℕ)
    (hg : ∀ t, sde.g t y0 = zeroDiffusion m y0)
    (hIk : y0.length ≤ I_k.length) (hIk0 : y0.length ≤ I_k0.length) :
    ∀ n, (stageLoop tab sde t0 y0 dt I_k I_k0 n).1 = rkLoop tab sde.f t0 y0 dt n ∧
      PrefixLE (rkLoop tab sde.f t0 y0 dt n).1 y0 := by
  intro n
  induction n with
  | zero => exact ⟨rfl, prefixLE_refl y0⟩
  | succ n ih =>
    have hin := stageInner_zero_diffusion tab sde t0 y0 dt I_k0
      (rkLoop tab sde.f t0 y0 dt n).2 n m hg hIk0 n
    refine ⟨?_, ?_⟩
    · simp only [stageLoop, rkLoop]
      rw [ih.1, hin.1, hg]
      refine Prod.ext ?_ rfl
      have hgw : (rkLoop tab sde.f t0 y0 dt n).1.length ≤
          (List.zipWith (fun I_k_ I_k0_ =>
            vadd (I_k_.map (fun x => tab.beta1 n * x))
              (I_k0_.map (fun x => tab.beta2 n * x / dt))) I_k I_k0).length := by
        rw [List.length_zipWith]
        exact ih.2.length_le.trans (le_min hIk hIk0)
      exact zipWith4_zero_g_plain (fun x => tab.alpha n * x * dt) m _ _ _ _ ih.2 hgw
    · simp only [rkLoop]
      exact prefixLE_zipWith _ (fun a b => length_vadd_le _ _) ih.2 _

/-- C7: if the diffusion evaluation returns a (conformant) zero operator at
every stage, then for every `t0`, `y0`, `dt > 0` the result of `step` is
independent of `I_k`, `I_k0` and the Brownian source — the Brownian source
`bm`, the sampler `randnLike`, the trapezoidal approximation `trapFn` and the
mode flag `ta` are all universally quantified and absent from the result —
and equals the deterministic explicit Runge-Kutta update `rkStep` determined
solely by `A0`, `C0` and `alpha`. (The block-count bounds `hbm`/`hIk0` say the
Brownian quantities carry at least as many blocks as the state, as any
conformant source does.) -/
theorem zero_diffusion_reduces_to_rk (sde : SDE) (bm : ℚ → List Tensor)
    (sqrt : ℚ → ℚ) (randnLike : Vec → Vec)
    (trapFn : (ℚ → List Tensor) → ℚ → List Tensor → ℚ → ℚ → List Vec)
    (t0 : ℚ) (y0 : List Tensor) (dt : ℚ) (ta : Bool) (m : ℕ)
    (h : 0 < dt)
    (hg : ∀ t, sde.g t (y0.map Tensor.vals) = zeroDiffusion m (y0.map Tensor.vals))
    (hbm : ∀ t, y0.length ≤ (bm t).length)
    (hIk0 : y0.length ≤ (I_k0_def (SRKAdditive.mk sde bm ta) sqrt randnLike trapFn t0 y0 dt).length) :
    ((SRKAdditive.mk sde bm ta).step sqrt randnLike trapFn t0 y0 dt).toOption.map
        (fun r => (r.t1, r.y1)) =
      some (t0 + dt, rkStep sra1 sde.f t0 (y0.map Tensor.vals) dt) := by
  have hIk : (y0.map Tensor.vals).length ≤
      ((I_k_def bm t0 dt y0).map Tensor.vals).length := by
    rw [List.length_map, List.length_map, I_k_def, List.length_zipWith]
    exact le_min (hbm (t0 + dt)) (hbm t0)
  have hIk0' : (y0.map Tensor.vals).length ≤
      (I_k0_def (SRKAdditive.mk sde bm ta) sqrt randnLike trapFn t0 y0 dt).length := by
    rw [List.length_map]; exact hIk0
  have hmain := stageLoop_zero_diffusion sra1 sde t0 (y0.map Tensor.vals) dt
    ((I_k_def bm t0 dt y0).map Tensor.vals)
    (I_k0_def (SRKAdditive.mk sde bm ta) sqrt randnLike trapFn t0 y0 dt) m
    hg hIk hIk0' sra1.STAGES
  simp only [SRKAdditive.step, h, if_true, Except.toOption, Option.map_some',
    Option.some.injEq, rkStep]
  rw [hmain.1]

theorem zero_diffusion_reduces_to_rk_witness :
    ((SRKAdditive.mk ⟨fun _ y => y, fun _ _ => [[[0]]]⟩ (fun t => [⟨0, [t]⟩]) false).step
        id id (fun _ _ _ _ _ => []) 0 [⟨0, [1]⟩] 1).toOption.map (fun r => (r.t1, r.y1)) =
      some (0 + 1, rkStep sra1 (fun _ y => y) 0 ([⟨0, [1]⟩].map Tensor.vals) 1) :=
  zero_diffusion_reduces_to_rk ⟨fun _ y => y, fun _ _ => [[[0]]]⟩ (fun t => [⟨0, [t]⟩])
    id id (fun _ _ _ _ _ => []) 0 [⟨0, [1]⟩] 1 false 1 (by norm_num) (fun _ => rfl)
    (fun _ => le_refl 1)
    (by norm_num [I_k0_def, I_k_def, gaussian_I_k0, vadd, Tensor.sub, Tensor.to])

theorem zipWith4_nil_trd {α β γ δ ε : Type} (f : α → β → γ → δ → ε)
    (as : List α) (bs : List β) (ds : List δ) : zipWith4 f as bs [] ds = [] := by
  cases as <;> cases bs <;> cases ds <;> rfl

theorem zipWith4_nil_fth {α β γ δ ε : Type} (f : α → β → γ → δ → ε)
    (as : List α) (bs : List β) (cs : List γ) : zipWith4 f as bs cs [] = [] := by
  cases as <;> cases bs <;> cases cs <;> rfl

theorem length_zipWith4 {α β γ δ ε : Type} (f : α → β → γ → δ → ε) :
    ∀ (as : List α) (bs : List β) (cs : List γ) (ds : List δ),
      (zipWith4 f as bs cs ds).length =
        min (min (min as.length bs.length) cs.length) ds.length := by
  intro as
  induction as with
  | nil =>
    intro bs cs ds
    rw [zipWith4_nil_left]
    simp
  | cons a as ih =>
    intro bs cs ds
    cases bs with
    | nil => rw [zipWith4_nil_snd]; simp
    | cons b bs =>
      cases cs with
      | nil => rw [zipWith4_nil_trd]; simp
      | cons c cs =>
        cases ds with
        | nil => rw [zipWith4_nil_fth]; simp
        | cons d ds =>
          simp only [zipWith4_cons, List.length_cons, ih bs cs ds]
          omega

theorem stageLoop_y1_length (tab : Tableau) (sde : SDE) (t0 : ℚ) (y0 : List Vec)
    (dt : ℚ) (I_k I_k0 : List Vec) (k l n : ℕ)
    (hf : ∀ t y, (sde.f t y).length = k) (hgl : ∀ t y, (sde.g t y).length = l)
    (hy0 : y0.length = n) (hIk : I_k.length = n) (hIk0 : I_k0.length = n)
    (hk : k ≤ n) (hl : l ≤ n) :
    ∀ j, (stageLoop tab sde t0 y0 dt I_k I_k0 (j + 1)).1.1.length = min k l := by
  intro j
  induction j with
  | zero =>
    simp only [stageLoop, length_zipWith4, List.length_zipWith, hf, hgl, hy0, hIk, hIk0]
    omega
  | succ j ih =>
    rw [stageLoop]
    simp only [length_zipWith4, List.length_zipWith, hf, hgl, hIk, hIk0, ih]
    omega

/-- C10: when `sde.f` returns `k` blocks and `sde.g` returns `l` blocks with at
least one of them fewer than the state's block count, `step` raises no shape
or block-count error — it succeeds — and the per-block `zip` silently
truncates, so the returned `y1` has `min k l` blocks, fewer than `y0`. -/
theorem block_truncation_no_error (sde : SDE) (bm : ℚ → List Tensor) (sqrt : ℚ → ℚ)
    (randnLike : Vec → Vec)
    (trapFn : (ℚ → List Tensor) → ℚ → List Tensor → ℚ → ℚ → List Vec)
    (t0 : ℚ) (y0 : List Tensor) (dt : ℚ) (k l : ℕ) (h : 0 < dt)
    (hf : ∀ t y, (sde.f t y).length = k) (hgl : ∀ t y, (sde.g t y).length = l)
    (hbm : ∀ t, (bm t).length = y0.length)
    (hk : k ≤ y0.length) (hl : l ≤ y0.length)
    (hshort : k < y0.length ∨ l < y0.length) :
    ((SRKAdditive.mk sde bm false).step sqrt randnLike trapFn t0 y0 dt).toOption.map
        (fun r => r.y1.length) = some (min k l) ∧
      min k l < y0.length := by
  have hIkv : ((I_k_def bm t0 dt y0).map Tensor.vals).length = y0.length := by
    rw [List.length_map, I_k_def, List.length_zipWith, hbm, hbm, min_self]
  have hg0 : I_k0_def (SRKAdditive.mk sde bm false) sqrt randnLike trapFn t0 y0 dt =
      gaussian_I_k0 sqrt randnLike dt ((I_k_def bm t0 dt y0).map Tensor.vals) := rfl
  have hIk0 : (I_k0_def (SRKAdditive.mk sde bm false) sqrt randnLike trapFn t0 y0 dt).length =
      y0.length := by
    rw [hg0, gaussian_I_k0, List.length_map]
    exact hIkv
  have hmain := stageLoop_y1_length sra1 sde t0 (y0.map Tensor.vals) dt
    ((I_k_def bm t0 dt y0).map Tensor.vals)
    (I_k0_def (SRKAdditive.mk sde bm false) sqrt randnLike trapFn t0 y0 dt)
    k l y0.length hf hgl (List.length_map _ _) hIkv hIk0 hk hl 1
  constructor
  · simp only [SRKAdditive.step, h, if_true, Except.toOption, Option.map_some',
      Option.some.injEq]
    have h2 : sra1.STAGES = 1 + 1 := rfl
    rw [h2]
    exact hmain
  · omega

theorem block_truncation_no_error_witness :
    ((SRKAdditive.mk ⟨fun _ _ => [[0]], fun _ _ => [[[0]], [[0]]]⟩
          (fun t => [⟨0, [t]⟩, ⟨0, [t]⟩]) false).step id id (fun _ _ _ _ _ => [])
        0 [⟨0, [1]⟩, ⟨0, [2]⟩] 1).toOption.map (fun r => r.y1.length) = some (min 1 2) ∧
      min 1 2 < ([⟨0, [1]⟩, ⟨0, [2]⟩] : List Tensor).length :=
  block_truncation_no_error ⟨fun _ _ => [[0]], fun _ _ => [[[0]], [[0]]]⟩
    (fun t => [⟨0, [t]⟩, ⟨0, [t]⟩]) id id (fun _ _ _ _ _ => []) 0 [⟨0, [1]⟩, ⟨0, [2]⟩] 1 1 2
    (by norm_num) (fun _ _ => rfl) (fun _ _ => rfl) (fun _ => rfl) (by norm_num) (by norm_num)
    (Or.inl (by norm_num))

end TorchSDE
